import Mathlib

set_option maxRecDepth 100000

/-!
Verification development for the YouTube transcript summarizer
(`summarize_yt.py`): a shallow embedding of its text-processing pipeline
(transcript cleaning, word chunking, map-reduce summarization, language
listing, the `main` control flow, and the PDF writer's path construction),
together with theorems about the testable properties of that code.

Strings are modelled on their underlying `List Char`; the summarization
backend is an opaque function `String → Except String String`
(`Except.error` models a raised exception); the filesystem is a record of
directory and file names.
-/

/-- `True` on whitespace characters; models the character class on which
Python's argumentless `str.split()` splits. -/
def isWS (c : Char) : Bool := c.isWhitespace

/-- Prepend a character to the first word of a word list (starting a new
word when the list is empty).  Helper for `pyWords`. -/
def consWord (c : Char) : List (List Char) → List (List Char)
  | [] => [[c]]
  | w :: ws => (c :: w) :: ws

/-- The word list of a character sequence: maximal runs of non-whitespace
characters, in order, empty runs discarded.  This is Python's
argumentless `str.split()`, used as `transcript_text.split()` in
`llm_summarize`. -/
def pyWords : List Char → List (List Char)
  | [] => []
  | [c] => if isWS c then [] else [[c]]
  | c :: d :: cs =>
    if isWS c then pyWords (d :: cs)
    else if isWS d then [c] :: pyWords (d :: cs)
    else consWord c (pyWords (d :: cs))

/-- Join words with single spaces: Python's `" ".join(words)`. -/
def unwords : List (List Char) → List Char
  | [] => []
  | [w] => w
  | w :: w' :: ws => w ++ ' ' :: unwords (w' :: ws)

/-- The filler-word set of `clean_transcript`:
`{"um", "uh", "like", "you", "know"}` (as lower-case character lists). -/
def filler_words : List (List Char) :=
  [['u','m'], ['u','h'], ['l','i','k','e'], ['y','o','u'], ['k','n','o','w']]

/-- The per-word filter of `clean_transcript`:
`len(word) > 2 and word.lower() not in filler_words`. -/
def keepWord (w : List Char) : Bool :=
  decide (2 < w.length) && !(filler_words.contains (w.map Char.toLower))

/-- The cleaned word list of a character sequence: `text.split()` filtered
by `keepWord`, as in the list comprehension of `clean_transcript`. -/
def cleanWords (l : List Char) : List (List Char) :=
  (pyWords l).filter keepWord

/-- `clean_transcript(text)`: split into words, drop short words and
filler words, re-join with single spaces. -/
def clean_transcript (text : String) : String :=
  ⟨unwords (cleanWords text.data)⟩

-- Sanity checks of the embedding on concrete data.
example : clean_transcript "hello world this is a test" = "hello world this test" := by decide
example : clean_transcript "  um  Uh LIKE you KNOW  " = "" := by decide
example : pyWords (" a  bc ".data) = [['a'], ['b','c']] := by decide

/-- Every word produced by `pyWords` is nonempty and whitespace-free. -/
theorem pyWords_sound : ∀ l : List Char, ∀ w ∈ pyWords l,
    w ≠ [] ∧ ∀ c ∈ w, isWS c = false := by
  intro l
  induction l with
  | nil => intro w hw; simp [pyWords] at hw
  | cons c cs ih =>
    intro w hw
    match cs with
    | [] =>
      by_cases hc : isWS c
      · simp [pyWords, hc] at hw
      · simp [pyWords, hc] at hw
        subst hw
        refine ⟨by simp, ?_⟩
        intro x hx; simp at hx; subst hx
        simpa using hc
    | d :: cs' =>
      by_cases hc : isWS c
      · rw [pyWords, if_pos hc] at hw
        exact ih w hw
      · by_cases hd : isWS d
        · rw [pyWords, if_neg hc, if_pos hd] at hw
          rcases List.mem_cons.mp hw with hw | hw
          · subst hw
            refine ⟨by simp, ?_⟩
            intro x hx; simp at hx; subst hx
            simpa using hc
          · exact ih w hw
        · rw [pyWords, if_neg hc, if_neg hd] at hw
          rcases hrec : pyWords (d :: cs') with _ | ⟨w0, ws0⟩
          · rw [hrec] at hw
            simp [consWord] at hw
            subst hw
            refine ⟨by simp, ?_⟩
            intro x hx; simp at hx; subst hx
            simpa using hc
          · rw [hrec] at hw
            simp only [consWord, List.mem_cons] at hw
            rcases hw with hw | hw
            · subst hw
              have h0 := ih w0 (by rw [hrec]; exact List.mem_cons_self _ _)
              refine ⟨by simp, ?_⟩
              intro x hx
              rcases List.mem_cons.mp hx with hx | hx
              · subst hx; simpa using hc
              · exact h0.2 x hx
            · exact ih w (by rw [hrec]; exact List.mem_cons_of_mem _ hw)

/-- `pyWords` skips a leading whitespace character. -/
theorem pyWords_ws_cons (c : Char) (l : List Char) (hc : isWS c = true) :
    pyWords (c :: l) = pyWords l := by
  match l with
  | [] => simp [pyWords, hc]
  | d :: t => rw [pyWords, if_pos hc]

/-- Reading back a whitespace-free nonempty word: `pyWords` of the word
followed by nothing or by a whitespace-led tail peels off exactly that
word. -/
theorem pyWords_word_append (w : List Char) (hne : w ≠ [])
    (hws : ∀ c ∈ w, isWS c = false) (l : List Char)
    (hl : l = [] ∨ ∃ d t, l = d :: t ∧ isWS d = true) :
    pyWords (w ++ l) = w :: pyWords l := by
  induction w with
  | nil => exact absurd rfl hne
  | cons c w' ih =>
    have hc : isWS c = false := hws c (List.mem_cons_self _ _)
    match w' with
    | [] =>
      rcases hl with hl | ⟨d, t, hl, hd⟩
      · subst hl; simp [pyWords, hc]
      · subst hl
        rw [List.singleton_append, pyWords, if_neg (by simp [hc]), if_pos hd]
    | c' :: w'' =>
      have hc' : isWS c' = false :=
        hws c' (List.mem_cons_of_mem _ (List.mem_cons_self _ _))
      have : (c :: c' :: w'') ++ l = c :: c' :: (w'' ++ l) := by simp
      rw [this, pyWords, if_neg (by simp [hc]), if_neg (by simp [hc'])]
      have hrec : pyWords (c' :: (w'' ++ l)) = (c' :: w'') :: pyWords l := by
        have := ih (by simp) (fun x hx => hws x (List.mem_cons_of_mem _ hx))
        simpa using this
      rw [hrec, consWord]

/-- Splitting undoes joining: `pyWords` of `unwords ws` is `ws`, for any
list of nonempty whitespace-free words. -/
theorem pyWords_unwords (ws : List (List Char))
    (h : ∀ w ∈ ws, w ≠ [] ∧ ∀ c ∈ w, isWS c = false) :
    pyWords (unwords ws) = ws := by
  induction ws with
  | nil => rfl
  | cons w ws' ih =>
    have hw := h w (List.mem_cons_self _ _)
    match ws' with
    | [] =>
      show pyWords (unwords [w]) = [w]
      have : unwords [w] = w ++ [] := by simp [unwords]
      rw [this, pyWords_word_append w hw.1 hw.2 [] (Or.inl rfl)]
      rfl
    | w' :: ws'' =>
      rw [unwords,
        pyWords_word_append w hw.1 hw.2 (' ' :: unwords (w' :: ws''))
          (Or.inr ⟨' ', unwords (w' :: ws''), rfl, by decide⟩),
        pyWords_ws_cons ' ' _ (by decide),
        ih (fun x hx => h x (List.mem_cons_of_mem _ hx))]

/-- Every cleaned word is nonempty, whitespace-free and passes the
`keepWord` filter. -/
theorem cleanWords_sound (l : List Char) : ∀ w ∈ cleanWords l,
    (w ≠ [] ∧ ∀ c ∈ w, isWS c = false) ∧ keepWord w = true := by
  intro w hw
  rcases List.mem_filter.mp hw with ⟨hmem, hkeep⟩
  exact ⟨pyWords_sound l w hmem, hkeep⟩

/-- Splitting the cleaned transcript returns exactly the cleaned word
list. -/
theorem pyWords_clean (t : String) :
    pyWords (clean_transcript t).data = cleanWords t.data := by
  show pyWords (unwords (cleanWords t.data)) = cleanWords t.data
  exact pyWords_unwords _ (fun w hw => (cleanWords_sound t.data w hw).1)

/-- C9: `clean_transcript` is idempotent: cleaning an already-cleaned
transcript changes nothing — every surviving word is longer than two
characters and not a filler word, and the output is single-space-joined,
so a second pass keeps every word. -/
theorem clean_transcript_idempotent (t : String) :
    clean_transcript (clean_transcript t) = clean_transcript t := by
  apply String.ext
  show unwords (cleanWords (clean_transcript t).data) = unwords (cleanWords t.data)
  have h1 : cleanWords (clean_transcript t).data = cleanWords t.data := by
    show (pyWords (clean_transcript t).data).filter keepWord = cleanWords t.data
    rw [pyWords_clean]
    exact List.filter_eq_self.mpr (fun w hw => (cleanWords_sound t.data w hw).2)
  rw [h1]

/-- Fuel-driven worker for `chunksBy`: peel off `take k` slices until the
list is exhausted.  The fuel (instantiated with the list length) only
serves structural termination; it never runs out when `0 < k`. -/
def chunksByFuel (k : Nat) : Nat → List α → List (List α)
  | _, [] => []
  | 0, _ :: _ => []
  | fuel + 1, a :: l => (a :: l).take k :: chunksByFuel k fuel ((a :: l).drop k)

/-- `chunksBy k l` is the slicing
`[l[i:i+k] for i in range(0, len(l), k)]` performed by `llm_summarize`
on its word list (with `k = max_input_length - 100`). -/
def chunksBy (k : Nat) (l : List α) : List (List α) :=
  chunksByFuel k l.length l


/-- `chunksByFuel` on the empty list is empty, whatever the fuel. -/
theorem chunksByFuel_nil (k fuel : Nat) :
    chunksByFuel (α := α) k fuel [] = [] := by
  cases fuel <;> rfl

/-- The fuel of `chunksByFuel` is irrelevant once it covers the list
length. -/
theorem chunksByFuel_congr (k : Nat) (hk : 0 < k) :
    ∀ fuel₁ fuel₂ (l : List α), l.length ≤ fuel₁ → l.length ≤ fuel₂ →
      chunksByFuel k fuel₁ l = chunksByFuel k fuel₂ l := by
  intro fuel₁
  induction fuel₁ with
  | zero =>
    intro fuel₂ l h1 _
    have : l = [] := List.eq_nil_of_length_eq_zero (Nat.le_zero.mp h1)
    subst this
    rw [chunksByFuel_nil, chunksByFuel_nil]
  | succ f ih =>
    intro fuel₂ l h1 h2
    match l, fuel₂ with
    | [], _ => rw [chunksByFuel_nil, chunksByFuel_nil]
    | a :: l', 0 => exact absurd h2 (by simp)
    | a :: l', g + 1 =>
      rw [chunksByFuel, chunksByFuel]
      congr 1
      simp only [List.length_cons] at h1 h2
      apply ih
      · rw [List.length_drop, List.length_cons]; omega
      · rw [List.length_drop, List.length_cons]; omega

/-- Unfolding `chunksBy` on a nonempty list. -/
theorem chunksBy_cons (k : Nat) (hk : 0 < k) (l : List α) (hl : l ≠ []) :
    chunksBy k l = l.take k :: chunksBy k (l.drop k) := by
  match l with
  | [] => exact absurd rfl hl
  | a :: l' =>
    show chunksByFuel k (l'.length + 1) (a :: l') = _
    rw [chunksByFuel]
    congr 1
    apply chunksByFuel_congr k hk
    · rw [List.length_drop, List.length_cons]; omega
    · exact Nat.le_refl _

/-- Concatenating the chunks restores the original list. -/
theorem chunksBy_flatten (k : Nat) (hk : 0 < k) (l : List α) :
    (chunksBy k l).flatten = l := by
  suffices h : ∀ fuel (l : List α), l.length ≤ fuel →
      (chunksByFuel k fuel l).flatten = l from h l.length l (Nat.le_refl _)
  intro fuel
  induction fuel with
  | zero =>
    intro l h1
    have : l = [] := List.eq_nil_of_length_eq_zero (Nat.le_zero.mp h1)
    subst this; rfl
  | succ f ih =>
    intro l h1
    match l with
    | [] => rfl
    | a :: l' =>
      rw [chunksByFuel, List.flatten_cons, ih]
      · exact List.take_append_drop k (a :: l')
      · rw [List.length_drop, List.length_cons]
        simp only [List.length_cons] at h1
        omega

/-- The number of chunks is the word count divided by `k`, rounded up. -/
theorem chunksBy_length (k : Nat) (hk : 0 < k) (l : List α) :
    (chunksBy k l).length = (l.length + k - 1) / k := by
  suffices h : ∀ fuel (l : List α), l.length ≤ fuel →
      (chunksByFuel k fuel l).length = (l.length + k - 1) / k from
    h l.length l (Nat.le_refl _)
  intro fuel
  induction fuel with
  | zero =>
    intro l h1
    have : l = [] := List.eq_nil_of_length_eq_zero (Nat.le_zero.mp h1)
    subst this
    show 0 = (0 + k - 1) / k
    rw [Nat.div_eq_of_lt (by omega)]
  | succ f ih =>
    intro l h1
    match l with
    | [] =>
      rw [chunksByFuel_nil]
      show 0 = ([].length + k - 1) / k
      rw [List.length_nil, Nat.div_eq_of_lt (by omega)]
    | a :: l' =>
      simp only [List.length_cons] at h1
      rw [chunksByFuel, List.length_cons, ih ((a :: l').drop k)
        (by rw [List.length_drop, List.length_cons]; omega)]
      rw [List.length_drop, List.length_cons]
      rcases Nat.lt_or_ge (l'.length + 1) (k + 1) with hlt | hge
      · have h0 : l'.length + 1 - k = 0 := by omega
        rw [h0]
        have he : l'.length + 1 + k - 1 = l'.length + k := by omega
        rw [he, Nat.add_div_right _ hk,
          Nat.div_eq_of_lt (show l'.length < k by omega),
          Nat.div_eq_of_lt (show 0 + k - 1 < k by omega)]
      · have he : l'.length + 1 + k - 1 = (l'.length + 1 - k + k - 1) + k := by
          omega
        rw [he, Nat.add_div_right _ hk]

/-- A summarization backend: a prompt goes in, either a summary comes out
(`Except.ok`) or the call raises (`Except.error`, carrying the message).
`setup_ollama_summarizer` produces such a function; `ollama_generate`
raises on any API failure. -/
def Summarizer : Type := String → Except String String

/-- An apostrophe, spliced into prompt text. -/
def apos : String := String.singleton (Char.ofNat 39)

/-- The model context-window bound assumed by `llm_summarize`:
`max_input_length = 4096`. -/
def max_input_length : Nat := 4096

/-- The chunking threshold and chunk size used by `llm_summarize`:
`max_input_length - 100` words. -/
def chunk_size : Nat := max_input_length - 100

/-- The direct-summarization prompt of `llm_summarize`, with the cleaned
transcript text substituted in. -/
def direct_prompt (transcript_text : String) : String :=
  "You are an expert summarizer. Provide only the summary content (do not include introductory phrases like "
    ++ apos ++ "Here is a concise, accurate summary of the text:" ++ apos
    ++ "). Create a concise, accurate summary of the following text, focusing on main ideas and key details, omitting filler or redundant content:\n\n"
    ++ transcript_text ++ "\n\nSummary:"

/-- The map-style per-chunk prompt (`chunk_prompt_template.format(chunk=chunk)`). -/
def chunk_prompt (chunk : String) : String :=
  "You are an expert summarizer. Provide only the summary content (no introductory phrases). Give a concise summary of the main points of the following text:\n\n"
    ++ chunk ++ "\n\nSummary:"

/-- The reduce-style final prompt over the concatenated intermediate
summaries. -/
def final_prompt (final_input : String) : String :=
  "You are an expert summarizer. Provide only the summary content (no introductory phrases). Combine these summaries into a single, precise summary:\n\n"
    ++ final_input ++ "\n\nSummary:"

/-- The word list `words = transcript_text.split()` computed by
`llm_summarize` after cleaning. -/
def words_of (t : String) : List (List Char) :=
  pyWords (clean_transcript t).data

/-- The chunk strings built by `llm_summarize` for an oversized
transcript: `" ".join(words[i:i + chunk_size])` slices. -/
def chunks_of (t : String) : List String :=
  (chunksBy chunk_size (words_of t)).map (fun c => (⟨unwords c⟩ : String))

/-- The `for chunk in chunks` loop of `llm_summarize`: call the backend
on each chunk prompt in order; stop at the first raised error.  Returns
the collected intermediate summaries (or the error) together with the
list of prompts actually sent. -/
def runChunks (s : Summarizer) : List String → Except String (List String) × List String
  | [] => (Except.ok [], [])
  | c :: cs =>
    match s (chunk_prompt c) with
    | Except.error e => (Except.error e, [chunk_prompt c])
    | Except.ok v =>
      match runChunks s cs with
      | (Except.error e, tr) => (Except.error e, chunk_prompt c :: tr)
      | (Except.ok vs, tr) => (Except.ok (v :: vs), chunk_prompt c :: tr)

/-- `llm_summarize(transcript_text, summarizer)` instrumented with the
list of prompts sent to the backend (second component).  `none` models
Python `None`; the guard `not transcript_text or not summarizer` catches
`None` and the empty string.  Any `Except.error` from a backend call is
the exception caught by the surrounding `try`, yielding the fixed
failure string. -/
def llm_summarizeT (transcript_text : Option String)
    (summarizer : Option Summarizer) : String × List String :=
  match transcript_text, summarizer with
  | none, _ => ("Unable to summarize.", [])
  | some _, none => ("Unable to summarize.", [])
  | some t, some s =>
    if t = "" then ("Unable to summarize.", [])
    else if (words_of t).length > max_input_length - 100 then
      match (runChunks s (chunks_of t)).1 with
      | Except.error _ => ("Summary generation failed.", (runChunks s (chunks_of t)).2)
      | Except.ok intermediate_summaries =>
        match s (final_prompt (String.intercalate " " intermediate_summaries)) with
        | Except.error _ =>
          ("Summary generation failed.",
            (runChunks s (chunks_of t)).2
              ++ [final_prompt (String.intercalate " " intermediate_summaries)])
        | Except.ok r =>
          (r, (runChunks s (chunks_of t)).2
              ++ [final_prompt (String.intercalate " " intermediate_summaries)])
    else
      match s (direct_prompt (clean_transcript t)) with
      | Except.error _ =>
        ("Summary generation failed.", [direct_prompt (clean_transcript t)])
      | Except.ok r => (r, [direct_prompt (clean_transcript t)])

/-- The return value of `llm_summarize(transcript_text, summarizer)`. -/
def llm_summarize (transcript_text : Option String)
    (summarizer : Option Summarizer) : String :=
  (llm_summarizeT transcript_text summarizer).1

/-- A stub summarizer that echoes its prompt back. -/
def echoSummarizer : Summarizer := fun p => Except.ok p

/-- A stub summarizer whose every call raises. -/
def errorSummarizer : Summarizer := fun _ => Except.error "Ollama API error: boom"

-- Sanity checks of the embedding on concrete data.
example : llm_summarize (some "") (some echoSummarizer) = "Unable to summarize." := by decide
example : llm_summarize (some "hi") (some echoSummarizer) = direct_prompt "" := by decide
example : llm_summarize (some "hello") (some echoSummarizer) = direct_prompt "hello" := by decide
example : llm_summarize (some "hello") (some errorSummarizer) = "Summary generation failed." := by decide

/-- The last element of a nonempty tail is the last element of the whole
list. -/
theorem getLast?_cons_of_ne_nil (a : α) (l : List α) (h : l ≠ []) :
    (a :: l).getLast? = l.getLast? := by
  cases l with
  | nil => exact absurd rfl h
  | cons b t => rw [List.getLast?_cons_cons]

/-- When the chunk loop completes without error, the prompts it sent are
exactly the chunk prompts, in chunk order. -/
theorem runChunks_ok_trace (s : Summarizer) : ∀ (cs : List String) (vs : List String),
    (runChunks s cs).1 = Except.ok vs →
    (runChunks s cs).2 = cs.map chunk_prompt := by
  intro cs
  induction cs with
  | nil => intro vs _; rfl
  | cons c cs' ih =>
    intro vs h
    rcases hsc : s (chunk_prompt c) with e | v
    · rw [runChunks, hsc] at h ⊢
      simp at h
    · rcases hrec : runChunks s cs' with ⟨fst, tr⟩
      rcases fst with e1 | vs1
      · rw [runChunks, hsc, hrec] at h
        simp at h
      · rw [runChunks, hsc, hrec] at h ⊢
        have : tr = cs'.map chunk_prompt := by
          have := ih vs1 (by rw [hrec])
          rwa [hrec] at this
        simp [this]

/-- When the chunk loop completes without error, every prompt it sent got
a successful reply. -/
theorem runChunks_ok_all (s : Summarizer) : ∀ (cs : List String) (vs : List String),
    (runChunks s cs).1 = Except.ok vs →
    ∀ p ∈ (runChunks s cs).2, ∃ v, s p = Except.ok v := by
  intro cs
  induction cs with
  | nil => intro vs _ p hp; simp [runChunks] at hp
  | cons c cs' ih =>
    intro vs h p hp
    rcases hsc : s (chunk_prompt c) with e | v
    · rw [runChunks, hsc] at h
      simp at h
    · rcases hrec : runChunks s cs' with ⟨fst, tr⟩
      rcases fst with e1 | vs1
      · rw [runChunks, hsc, hrec] at h
        simp at h
      · rw [runChunks, hsc, hrec] at hp
        rcases List.mem_cons.mp hp with hp | hp
        · exact ⟨v, by rw [hp, hsc]⟩
        · exact ih vs1 (by rw [hrec]) p (by rw [hrec]; exact hp)

/-- If a prompt sent by the chunk loop raised an error, the loop result
is that error and the erroring prompt is the last prompt sent (no later
call is made). -/
theorem runChunks_error_last (s : Summarizer) : ∀ (cs : List String) (p e),
    p ∈ (runChunks s cs).2 → s p = Except.error e →
    (∃ e', (runChunks s cs).1 = Except.error e') ∧
      (runChunks s cs).2.getLast? = some p := by
  intro cs
  induction cs with
  | nil => intro p e hp _; simp [runChunks] at hp
  | cons c cs' ih =>
    intro p e hp he
    rcases hsc : s (chunk_prompt c) with e0 | v
    · rw [runChunks, hsc] at hp ⊢
      simp at hp
      subst hp
      exact ⟨⟨e0, rfl⟩, rfl⟩
    · rcases hrec : runChunks s cs' with ⟨fst, tr⟩
      rcases fst with e1 | vs1
      · rw [runChunks, hsc, hrec] at hp ⊢
        rcases List.mem_cons.mp hp with hp | hp
        · subst hp; rw [hsc] at he; simp at he
        · have hih := ih p e (by rw [hrec]; exact hp) he
          rw [hrec] at hih
          refine ⟨⟨e1, rfl⟩, ?_⟩
          show (chunk_prompt c :: tr).getLast? = some p
          rw [getLast?_cons_of_ne_nil _ _ (by rintro rfl; simp at hp)]
          exact hih.2
      · rw [runChunks, hsc, hrec] at hp
        rcases List.mem_cons.mp hp with hp | hp
        · subst hp; rw [hsc] at he; simp at he
        · have hih := ih p e (by rw [hrec]; exact hp) he
          rw [hrec] at hih
          rcases hih.1 with ⟨e', he'⟩
          simp at he'

/-- `pat.isPrefixOf l` spelled out on character lists. -/
def startsWithL : List Char → List Char → Bool
  | [], _ => true
  | _ :: _, [] => false
  | p :: ps, c :: cs => p == c && startsWithL ps cs

/-- Contiguous-substring test on character lists; `hasSeg pat l` models
Python's `pat in l` on strings. -/
def hasSeg (pat : List Char) : List Char → Bool
  | [] => pat.isEmpty
  | l@(_ :: rest) => startsWithL pat l || hasSeg pat rest

/-- Python's `sub in s` membership test on strings. -/
def pyContains (s sub : String) : Bool := hasSeg sub.data s.data

-- Sanity checks of the embedding on concrete data.
example : pyContains "https://www.youtube.com/watch?v=abc" "youtube.com" = true := by decide
example : pyContains "https://www.youtube.com/watch" "v=" = false := by decide

/-- Fuel-driven worker for `splitSeg`; the accumulator holds the current
segment reversed.  Fuel (instantiated with the input length) only drives
structural termination. -/
def splitSegFuel (sep : List Char) : Nat → List Char → List Char → List (List Char)
  | _, [], acc => [acc.reverse]
  | 0, _ :: _, acc => [acc.reverse]
  | fuel + 1, c :: rest, acc =>
    if startsWithL sep (c :: rest) then
      acc.reverse :: splitSegFuel sep fuel ((c :: rest).drop sep.length) []
    else splitSegFuel sep fuel rest (c :: acc)

/-- Split at every non-overlapping occurrence of `sep`, left to right:
Python's `s.split(sep)` for a non-empty separator, on character lists. -/
def splitSeg (sep l : List Char) : List (List Char) :=
  splitSegFuel sep l.length l []

/-- Python's `s.split(sep)` on strings. -/
def pySplitOn (s sep : String) : List String :=
  (splitSeg sep.data s.data).map (fun l => (⟨l⟩ : String))

-- Sanity checks of the embedding on concrete data.
example : pySplitOn "a&b&" "&" = ["a", "b", ""] := by decide
example : pySplitOn "abc" "&" = ["abc"] := by decide
example : pySplitOn "" "&" = [""] := by decide

/-- The video-identifier extraction of `main`: URL-shaped inputs go
through the `v=` / `youtu.be` parsers (`split("v=")[1].split("&")[0]`,
resp. `split("/")[-1].split("?")[0]`); anything else is taken as a raw
identifier.  `none` models the branch in which Python assigns nothing to
`video_id`, so that its next use raises `NameError`. -/
def extract_video_id (video_url : String) : Option String :=
  if pyContains video_url "youtube.com" || pyContains video_url "youtu.be" then
    if pyContains video_url "v=" then
      some ((pySplitOn ((pySplitOn video_url "v=").getD 1 "") "&").headD "")
    else if pyContains video_url "youtu.be" then
      some ((pySplitOn ((pySplitOn video_url "/").getLastD "") "?").headD "")
    else none
  else some video_url

-- Sanity checks of the embedding on concrete data.
example : extract_video_id "https://www.youtube.com/watch?v=dQw4&t=1" = some "dQw4" := by decide
example : extract_video_id "https://youtu.be/dQw4?t=1" = some "dQw4" := by decide
example : extract_video_id "dQw4" = some "dQw4" := by decide

/-- `list_available_languages(video_id)`, abstracted over the captioning
backend's reply: the language-code list on success, `[]` when the listing
call raises. -/
def list_available_languages (listing : Except String (List String)) : List String :=
  match listing with
  | Except.ok langs => langs
  | Except.error _ => []

/-- The externally observable calls `main` can make, in order. -/
inductive MEvent where
  | getModels
  | setupModel
  | listLangs (video_id : String)
  | fetchTranscript (video_id lang : String)
  | summarizeCall
  | savePdf (video_id lang : String)
deriving DecidableEq

/-- The stubbed environment `main` runs against: the Ollama model list,
the summarizer produced by setup (`none` on failure), the
interactively-entered URL and language, the captioning backend's
language listing, and the transcript fetcher. -/
structure MainEnv where
  available_models : List String
  setup_result : Option Summarizer
  video_url : String
  listing : Except String (List String)
  lang_input : String
  fetchF : String → String → Option String

/-- The control flow of `main` as the sequence of external calls it
performs: stop after the model listing when no models exist, after setup
when setup fails, crash (`NameError`) before the language listing when
`extract_video_id` assigns nothing, stop after the language listing when
it is empty, and otherwise fetch — continuing to summarization and the
PDF write only for a non-empty transcript. -/
def main_model (env : MainEnv) : List MEvent :=
  if env.available_models = [] then [MEvent.getModels]
  else
    match env.setup_result with
    | none => [MEvent.getModels, MEvent.setupModel]
    | some _ =>
      match extract_video_id env.video_url with
      | none => [MEvent.getModels, MEvent.setupModel]
      | some vid =>
        if list_available_languages env.listing = [] then
          [MEvent.getModels, MEvent.setupModel, MEvent.listLangs vid]
        else
          match env.fetchF vid env.lang_input with
          | none => [MEvent.getModels, MEvent.setupModel, MEvent.listLangs vid,
              MEvent.fetchTranscript vid env.lang_input]
          | some transcript_text =>
            if transcript_text = "" then
              [MEvent.getModels, MEvent.setupModel, MEvent.listLangs vid,
                MEvent.fetchTranscript vid env.lang_input]
            else
              [MEvent.getModels, MEvent.setupModel, MEvent.listLangs vid,
                MEvent.fetchTranscript vid env.lang_input,
                MEvent.summarizeCall, MEvent.savePdf vid env.lang_input]

/-- The filesystem as visible to `save_summary_to_pdf`: the directory
names and file paths that exist. -/
structure FS where
  dirs : List String
  files : List String

/-- The output path built by `save_summary_to_pdf`:
`f"{output_dir}/summary_{video_id}_{lang}_{timestamp}.pdf"`. -/
def pdf_filename (video_id lang timestamp : String) : String :=
  "summaries/summary_" ++ video_id ++ ("_" ++ lang ++ "_" ++ timestamp ++ ".pdf")

/-- `save_summary_to_pdf(summary, video_id, lang)`: create the
`summaries` directory when missing, then write the timestamped PDF.
`timestamp` stands for `datetime.now().strftime("%Y%m%d_%H%M%S")`;
`render_ok` is false when `doc.build` raises, in which case `None` is
returned and no file is written. -/
def save_summary_to_pdf (fs : FS) (summary video_id lang timestamp : String)
    (render_ok : Bool) : FS × Option String :=
  let fs1 : FS := if "summaries" ∈ fs.dirs then fs else ⟨"summaries" :: fs.dirs, fs.files⟩
  if render_ok then
    (⟨fs1.dirs, pdf_filename video_id lang timestamp :: fs1.files⟩,
      some (pdf_filename video_id lang timestamp))
  else (fs1, none)

/-- C8: with a missing (`None`) or empty transcript, or a missing
(`None`) summarizer, `llm_summarize` returns the fixed string
`"Unable to summarize."` and sends no prompt to the backend. -/
theorem llm_summarize_guard (t : Option String) (s : Option Summarizer)
    (h : t = none ∨ t = some "" ∨ s = none) :
    llm_summarizeT t s = ("Unable to summarize.", []) := by
  rcases h with h | h | h
  · subst h; rfl
  · subst h
    cases s with
    | none => rfl
    | some s0 => simp [llm_summarizeT]
  · subst h
    cases t with
    | none => rfl
    | some t0 => rfl

/-- Witness for C8: a missing transcript with a live summarizer. -/
theorem llm_summarize_guard_witness :
    llm_summarizeT none (some echoSummarizer) = ("Unable to summarize.", []) :=
  llm_summarize_guard none (some echoSummarizer) (Or.inl rfl)

/-- Counterexample to C2 as stated: the empty transcript has word count
0 ≤ 3996, yet `llm_summarize` makes zero backend calls (empty trace) and
returns the guard string, not the result of a summarizer call. -/
theorem llm_direct_zero_calls_cex :
    (words_of "").length ≤ max_input_length - 100
    ∧ llm_summarizeT (some "") (some echoSummarizer) = ("Unable to summarize.", []) := by
  constructor
  · decide
  · rfl

/-- C2 (amended to non-empty transcripts): if the cleaned word count is
at most `max_input_length - 100`, `llm_summarize` sends exactly one
prompt — the direct prompt embedding the full cleaned transcript — and
returns that call's result when it succeeds. -/
theorem llm_summarize_direct (t : String) (s : Summarizer) (ht : t ≠ "")
    (hlen : (words_of t).length ≤ max_input_length - 100) :
    (llm_summarizeT (some t) (some s)).2 = [direct_prompt (clean_transcript t)]
    ∧ ∀ r, s (direct_prompt (clean_transcript t)) = Except.ok r →
        (llm_summarizeT (some t) (some s)).1 = r := by
  have hnot : ¬ ((words_of t).length > max_input_length - 100) := Nat.not_lt.mpr hlen
  constructor
  · rcases hsp : s (direct_prompt (clean_transcript t)) with e | r <;>
      · simp only [llm_summarizeT]
        rw [if_neg ht, if_neg hnot, hsp]
  · intro r hr
    simp only [llm_summarizeT]
    rw [if_neg ht, if_neg hnot, hr]

/-- Witness for the amended C2: a five-letter transcript with the echo
summarizer gets exactly one call and the echoed prompt back. -/
theorem llm_summarize_direct_witness :
    ("hello" : String) ≠ ""
    ∧ (words_of "hello").length ≤ max_input_length - 100
    ∧ (llm_summarizeT (some "hello") (some echoSummarizer)).2
        = [direct_prompt (clean_transcript "hello")]
    ∧ (llm_summarizeT (some "hello") (some echoSummarizer)).1
        = direct_prompt (clean_transcript "hello") :=
  ⟨by decide, by decide,
    (llm_summarize_direct "hello" echoSummarizer (by decide) (by decide)).1,
    (llm_summarize_direct "hello" echoSummarizer (by decide) (by decide)).2 _ rfl⟩

/-- Counterexample to C3 as stated: with the echo summarizer, the result
on `"hello world this is a test"` is not the prompt wrapping that raw
input text (cleaning drops `"is"` and `"a"` first). -/
theorem llm_echo_prompt_cex :
    llm_summarize (some "hello world this is a test") (some echoSummarizer)
      ≠ direct_prompt "hello world this is a test" := by decide

/-- C3 (amended): the echo summarizer returns the direct prompt wrapping
the cleaned transcript, which for `"hello world this is a test"` is
`"hello world this test"`. -/
theorem llm_echo_prompt_amended :
    llm_summarize (some "hello world this is a test") (some echoSummarizer)
      = direct_prompt (clean_transcript "hello world this is a test")
    ∧ clean_transcript "hello world this is a test" = "hello world this test" := by
  constructor
  · decide
  · decide

/-- C1: for a transcript whose cleaned word count exceeds
`max_input_length - 100 = 3996`, the chunking of `llm_summarize`
produces exactly `⌈word_count / 3996⌉` chunks, and their concatenation
is the original word sequence, no word dropped or duplicated. -/
theorem chunking_partition (t : String)
    (h : chunk_size < (words_of t).length) :
    (chunksBy chunk_size (words_of t)).length
        = ((words_of t).length + chunk_size - 1) / chunk_size
    ∧ (chunksBy chunk_size (words_of t)).flatten = words_of t :=
  ⟨chunksBy_length chunk_size (by decide) _,
    chunksBy_flatten chunk_size (by decide) _⟩

/-- A 3997-word transcript: 3997 copies of `"abc"` space-joined. -/
def abcWord : List Char := ['a', 'b', 'c']

/-- A concrete oversized transcript (3997 words). -/
def bigT : String := ⟨unwords (List.replicate 3997 abcWord)⟩

/-- Replicated `"abc"` words are nonempty and whitespace-free. -/
theorem replicate_abc_sound (n : Nat) :
    ∀ w ∈ List.replicate n abcWord, w ≠ [] ∧ ∀ c ∈ w, isWS c = false := by
  intro w hw
  rw [List.eq_of_mem_replicate hw]
  exact ⟨by decide, by decide⟩

/-- The cleaned word list of `bigT` is its 3997 words unchanged. -/
theorem words_of_bigT : words_of bigT = List.replicate 3997 abcWord := by
  have h1 : cleanWords bigT.data = List.replicate 3997 abcWord := by
    show (pyWords (unwords (List.replicate 3997 abcWord))).filter keepWord = _
    rw [pyWords_unwords _ (replicate_abc_sound 3997)]
    exact List.filter_eq_self.mpr
      (fun w hw => by rw [List.eq_of_mem_replicate hw]; decide)
  show pyWords (unwords (cleanWords bigT.data)) = _
  rw [h1, pyWords_unwords _ (replicate_abc_sound 3997)]

/-- `bigT` is over the chunking threshold. -/
theorem bigT_long : chunk_size < (words_of bigT).length := by
  rw [words_of_bigT, List.length_replicate]; decide

/-- Witness for C1: on the 3997-word transcript the hypotheses hold and
chunking yields the stated count and partition. -/
theorem chunking_partition_witness :
    chunk_size < (words_of bigT).length
    ∧ ((chunksBy chunk_size (words_of bigT)).length
          = ((words_of bigT).length + chunk_size - 1) / chunk_size
      ∧ (chunksBy chunk_size (words_of bigT)).flatten = words_of bigT) :=
  ⟨bigT_long, chunking_partition bigT bigT_long⟩

/-- C4: for an oversized transcript whose chunk loop succeeds,
`llm_summarize` sends exactly one map-style prompt per chunk, in chunk
order, followed by exactly one reduce-style prompt embedding the
space-joined intermediate summaries — the intermediate summaries are
never re-chunked — and returns the final call's result when it
succeeds. -/
theorem llm_map_reduce (t : String) (s : Summarizer) (inters : List String)
    (hlen : chunk_size < (words_of t).length)
    (hok : (runChunks s (chunks_of t)).1 = Except.ok inters) :
    (llm_summarizeT (some t) (some s)).2
        = (chunks_of t).map chunk_prompt
          ++ [final_prompt (String.intercalate " " inters)]
    ∧ ∀ r, s (final_prompt (String.intercalate " " inters)) = Except.ok r →
        (llm_summarizeT (some t) (some s)).1 = r := by
  have ht : t ≠ "" := by
    rintro rfl
    rw [show words_of "" = [] from rfl] at hlen
    exact absurd hlen (by decide)
  have hgt : (words_of t).length > max_input_length - 100 := hlen
  have htr := runChunks_ok_trace s (chunks_of t) inters hok
  rcases hpair : runChunks s (chunks_of t) with ⟨fst, tr⟩
  rw [hpair] at hok htr
  simp only at hok htr
  subst hok
  constructor
  · rcases hsf : s (final_prompt (String.intercalate " " inters)) with e | r <;>
      · simp only [llm_summarizeT]
        rw [if_neg ht, if_pos hgt, hpair]
        simp [hsf, htr]
  · intro r hr
    simp only [llm_summarizeT]
    rw [if_neg ht, if_pos hgt, hpair]
    simp [hr]

/-- The first chunk of `bigT`: its first 3996 words. -/
def bigChunk1 : String := ⟨unwords (List.replicate 3996 abcWord)⟩

/-- The second chunk of `bigT`: its one remaining word. -/
def bigChunk2 : String := ⟨unwords (List.replicate 1 abcWord)⟩

/-- The chunking of `bigT`: one full chunk and one single-word chunk. -/
theorem chunksBy_bigT : chunksBy chunk_size (words_of bigT)
    = [List.replicate 3996 abcWord, List.replicate 1 abcWord] := by
  have hne : ∀ n : Nat, n ≠ 0 → List.replicate n abcWord ≠ [] := by
    intro n hn h
    have := congrArg List.length h
    rw [List.length_replicate] at this
    exact hn this
  rw [words_of_bigT,
    chunksBy_cons chunk_size (by decide) _ (hne 3997 (by decide)),
    List.take_replicate, List.drop_replicate]
  have h1 : chunk_size ⊓ 3997 = 3996 := by decide
  have h2 : 3997 - chunk_size = 1 := by decide
  rw [h1, h2,
    chunksBy_cons chunk_size (by decide) _ (hne 1 (by decide)),
    List.take_of_length_le (by rw [List.length_replicate]; decide),
    List.drop_eq_nil_of_le (by rw [List.length_replicate]; decide)]
  rfl

/-- The chunk strings of `bigT`. -/
theorem chunks_of_bigT : chunks_of bigT = [bigChunk1, bigChunk2] := by
  show (chunksBy chunk_size (words_of bigT)).map _ = _
  rw [chunksBy_bigT]
  rfl

/-- The chunk loop with the echo summarizer on two chunks echoes both
chunk prompts. -/
theorem runChunks_echo_pair (x y : String) :
    runChunks echoSummarizer [x, y]
      = (Except.ok [chunk_prompt x, chunk_prompt y],
          [chunk_prompt x, chunk_prompt y]) := rfl

/-- The chunk loop on `bigT` with the echo summarizer succeeds. -/
theorem runChunks_echo_bigT :
    (runChunks echoSummarizer (chunks_of bigT)).1
      = Except.ok [chunk_prompt bigChunk1, chunk_prompt bigChunk2] := by
  rw [chunks_of_bigT, runChunks_echo_pair]

/-- Witness for C4: the 3997-word transcript with the echo summarizer —
two chunk prompts then one final prompt, and the final prompt echoed
back. -/
theorem llm_map_reduce_witness :
    chunk_size < (words_of bigT).length
    ∧ (runChunks echoSummarizer (chunks_of bigT)).1
        = Except.ok [chunk_prompt bigChunk1, chunk_prompt bigChunk2]
    ∧ (llm_summarizeT (some bigT) (some echoSummarizer)).2
        = (chunks_of bigT).map chunk_prompt
          ++ [final_prompt (String.intercalate " "
                [chunk_prompt bigChunk1, chunk_prompt bigChunk2])]
    ∧ (llm_summarizeT (some bigT) (some echoSummarizer)).1
        = final_prompt (String.intercalate " "
            [chunk_prompt bigChunk1, chunk_prompt bigChunk2]) :=
  ⟨bigT_long, runChunks_echo_bigT,
    (llm_map_reduce bigT echoSummarizer _ bigT_long runChunks_echo_bigT).1,
    (llm_map_reduce bigT echoSummarizer _ bigT_long runChunks_echo_bigT).2 _ rfl⟩

/-- C5: whenever a prompt actually sent by `llm_summarize` raised an
error, the result is the fixed string `"Summary generation failed."` —
no partial result — and the erroring prompt is the last prompt sent, so
nothing is retried and no later call is made. -/
theorem llm_error_policy (t : Option String) (s : Summarizer) (p e : String)
    (hp : p ∈ (llm_summarizeT t (some s)).2) (he : s p = Except.error e) :
    (llm_summarizeT t (some s)).1 = "Summary generation failed."
    ∧ (llm_summarizeT t (some s)).2.getLast? = some p := by
  match t with
  | none => simp [llm_summarizeT] at hp
  | some t =>
    by_cases ht : t = ""
    · subst ht; simp [llm_summarizeT] at hp
    · by_cases hlen : (words_of t).length > max_input_length - 100
      · rcases hpair : runChunks s (chunks_of t) with ⟨fst, tr⟩
        rcases fst with e1 | inters
        · have h2 : llm_summarizeT (some t) (some s)
              = ("Summary generation failed.", tr) := by
            simp only [llm_summarizeT]
            rw [if_neg ht, if_pos hlen, hpair]
          rw [h2] at hp ⊢
          have hlast := runChunks_error_last s (chunks_of t) p e
            (by rw [hpair]; exact hp) he
          rw [hpair] at hlast
          exact ⟨rfl, hlast.2⟩
        · have htr := runChunks_ok_trace s (chunks_of t) inters (by rw [hpair])
          rw [hpair] at htr
          have hall := runChunks_ok_all s (chunks_of t) inters (by rw [hpair])
          rw [hpair] at hall
          rcases hsf : s (final_prompt (String.intercalate " " inters)) with e2 | r
          · have h2 : llm_summarizeT (some t) (some s)
                = ("Summary generation failed.",
                    tr ++ [final_prompt (String.intercalate " " inters)]) := by
              simp only [llm_summarizeT]
              rw [if_neg ht, if_pos hlen, hpair]
              simp [hsf]
            rw [h2] at hp ⊢
            refine ⟨rfl, ?_⟩
            rcases List.mem_append.mp hp with hmem | hmem
            · rcases hall p hmem with ⟨v, hv⟩
              rw [he] at hv
              simp at hv
            · simp at hmem
              subst hmem
              exact List.getLast?_concat _
          · have h2 : llm_summarizeT (some t) (some s)
                = (r, tr ++ [final_prompt (String.intercalate " " inters)]) := by
              simp only [llm_summarizeT]
              rw [if_neg ht, if_pos hlen, hpair]
              simp [hsf]
            rw [h2] at hp
            rcases List.mem_append.mp hp with hmem | hmem
            · rcases hall p hmem with ⟨v, hv⟩
              rw [he] at hv
              simp at hv
            · simp at hmem
              subst hmem
              rw [he] at hsf
              simp at hsf
      · rcases hsp : s (direct_prompt (clean_transcript t)) with e1 | r
        · have h2 : llm_summarizeT (some t) (some s)
              = ("Summary generation failed.", [direct_prompt (clean_transcript t)]) := by
            simp only [llm_summarizeT]
            rw [if_neg ht, if_neg hlen, hsp]
          rw [h2] at hp ⊢
          simp at hp
          subst hp
          exact ⟨rfl, rfl⟩
        · have h2 : llm_summarizeT (some t) (some s)
              = (r, [direct_prompt (clean_transcript t)]) := by
            simp only [llm_summarizeT]
            rw [if_neg ht, if_neg hlen, hsp]
          rw [h2] at hp
          simp at hp
          subst hp
          rw [he] at hsp
          simp at hsp

/-- Witness for C5: a summarizer whose calls raise — the single direct
prompt is in the trace, errored, and `llm_summarize` returns the failure
string with that prompt as the final (only) call. -/
theorem llm_error_policy_witness :
    direct_prompt (clean_transcript "hello")
        ∈ (llm_summarizeT (some "hello") (some errorSummarizer)).2
    ∧ ((llm_summarizeT (some "hello") (some errorSummarizer)).1
          = "Summary generation failed."
      ∧ (llm_summarizeT (some "hello") (some errorSummarizer)).2.getLast?
          = some (direct_prompt (clean_transcript "hello"))) :=
  ⟨by decide,
    llm_error_policy (some "hello") errorSummarizer
      (direct_prompt (clean_transcript "hello")) "Ollama API error: boom"
      (by decide) rfl⟩

/-- C6: when the captioning backend reports no languages or the listing
call raises, `list_available_languages` returns the empty list and
`main` halts without ever invoking the transcript fetch. -/
theorem langs_empty_halts (env : MainEnv)
    (h : env.listing = Except.ok [] ∨ ∃ e, env.listing = Except.error e) :
    list_available_languages env.listing = []
    ∧ ∀ v l, MEvent.fetchTranscript v l ∉ main_model env := by
  have hempty : list_available_languages env.listing = [] := by
    rcases h with h | ⟨e, h⟩ <;> rw [h] <;> rfl
  refine ⟨hempty, ?_⟩
  intro v l
  unfold main_model
  by_cases hm : env.available_models = []
  · rw [if_pos hm]; simp
  · rw [if_neg hm]
    rcases hs : env.setup_result with _ | s
    · simp
    · rcases hx : extract_video_id env.video_url with _ | vid
      · simp
      · simp [hempty]

/-- A concrete `main` environment whose language listing is empty. -/
def noLangEnv : MainEnv :=
  { available_models := ["llama3:latest"]
    setup_result := some echoSummarizer
    video_url := "dQw4w9WgXcQ"
    listing := Except.ok []
    lang_input := "en"
    fetchF := fun _ _ => some "transcript text" }

/-- Witness for C6: in `noLangEnv` the listing is empty and no fetch
event occurs. -/
theorem langs_empty_halts_witness :
    list_available_languages noLangEnv.listing = []
    ∧ MEvent.fetchTranscript "dQw4w9WgXcQ" "en" ∉ main_model noLangEnv :=
  ⟨(langs_empty_halts noLangEnv (Or.inl rfl)).1,
    (langs_empty_halts noLangEnv (Or.inl rfl)).2 "dQw4w9WgXcQ" "en"⟩

/-- `(a ++ b).data` unfolds to the concatenation of the two data lists. -/
theorem str_data_append (a b : String) : (a ++ b).data = a.data ++ b.data := rfl

/-- The PDF path determines the video identifier (for a fixed language
and timestamp). -/
theorem pdf_filename_inj (v1 v2 lang ts : String)
    (h : pdf_filename v1 lang ts = pdf_filename v2 lang ts) : v1 = v2 := by
  have hd := congrArg String.data h
  simp only [pdf_filename, str_data_append] at hd
  exact String.ext (List.append_cancel_left (List.append_cancel_right hd))

/-- The writer always ends with the `summaries` directory present. -/
theorem save_pdf_dir_created (fs : FS) (sm v lang ts : String) (ok : Bool) :
    "summaries" ∈ (save_summary_to_pdf fs sm v lang ts ok).1.dirs := by
  by_cases h : "summaries" ∈ fs.dirs <;> cases ok <;>
    simp [save_summary_to_pdf, h]

/-- With the directory already present, the writer leaves the directory
list unchanged. -/
theorem save_pdf_dir_stable (fs : FS) (sm v lang ts : String) (ok : Bool)
    (h : "summaries" ∈ fs.dirs) :
    (save_summary_to_pdf fs sm v lang ts ok).1.dirs = fs.dirs := by
  cases ok <;> simp [save_summary_to_pdf, h]

/-- A successful write returns the timestamped path. -/
theorem save_pdf_result (fs : FS) (sm v lang ts : String) :
    (save_summary_to_pdf fs sm v lang ts true).2
      = some (pdf_filename v lang ts) := by
  by_cases h : "summaries" ∈ fs.dirs <;> simp [save_summary_to_pdf, h]

/-- A successful write prepends the new path and keeps every existing
file. -/
theorem save_pdf_files (fs : FS) (sm v lang ts : String) :
    (save_summary_to_pdf fs sm v lang ts true).1.files
      = pdf_filename v lang ts :: fs.files := by
  by_cases h : "summaries" ∈ fs.dirs <;> simp [save_summary_to_pdf, h]

/-- C7: `save_summary_to_pdf` creates the `summaries` directory when
missing, a second run finds it and leaves the directory list unchanged,
and two same-second invocations differing only in the video identifier
produce different paths, the first file surviving the second write. -/
theorem save_pdf_no_overwrite (fs : FS) (sm v1 v2 lang ts : String)
    (hv : v1 ≠ v2) :
    "summaries" ∈ (save_summary_to_pdf fs sm v1 lang ts true).1.dirs
    ∧ (save_summary_to_pdf (save_summary_to_pdf fs sm v1 lang ts true).1
          sm v2 lang ts true).1.dirs
        = (save_summary_to_pdf fs sm v1 lang ts true).1.dirs
    ∧ (save_summary_to_pdf fs sm v1 lang ts true).2
        ≠ (save_summary_to_pdf (save_summary_to_pdf fs sm v1 lang ts true).1
            sm v2 lang ts true).2
    ∧ ∀ f ∈ (save_summary_to_pdf fs sm v1 lang ts true).1.files,
        f ∈ (save_summary_to_pdf (save_summary_to_pdf fs sm v1 lang ts true).1
            sm v2 lang ts true).1.files := by
  have hdir := save_pdf_dir_created fs sm v1 lang ts true
  refine ⟨hdir, save_pdf_dir_stable _ sm v2 lang ts true hdir, ?_, ?_⟩
  · rw [save_pdf_result, save_pdf_result]
    intro hc
    rw [Option.some_inj] at hc
    exact hv (pdf_filename_inj v1 v2 lang ts hc)
  · intro f hf
    rw [save_pdf_files]
    exact List.mem_cons_of_mem _ hf

/-- Witness for C7: two writes in the same second for distinct video
identifiers on an empty filesystem. -/
theorem save_pdf_no_overwrite_witness :
    ("abc123" : String) ≠ "xyz789"
    ∧ ("summaries"
        ∈ (save_summary_to_pdf ⟨[], []⟩ "s" "abc123" "en" "20251012_120000" true).1.dirs
      ∧ (save_summary_to_pdf
            (save_summary_to_pdf ⟨[], []⟩ "s" "abc123" "en" "20251012_120000" true).1
            "s" "xyz789" "en" "20251012_120000" true).1.dirs
          = (save_summary_to_pdf ⟨[], []⟩ "s" "abc123" "en" "20251012_120000" true).1.dirs
      ∧ (save_summary_to_pdf ⟨[], []⟩ "s" "abc123" "en" "20251012_120000" true).2
          ≠ (save_summary_to_pdf
              (save_summary_to_pdf ⟨[], []⟩ "s" "abc123" "en" "20251012_120000" true).1
              "s" "xyz789" "en" "20251012_120000" true).2
      ∧ pdf_filename "abc123" "en" "20251012_120000"
          ∈ (save_summary_to_pdf
              (save_summary_to_pdf ⟨[], []⟩ "s" "abc123" "en" "20251012_120000" true).1
              "s" "xyz789" "en" "20251012_120000" true).1.files) := by
  have hmain := save_pdf_no_overwrite ⟨[], []⟩ "s" "abc123" "xyz789" "en"
    "20251012_120000" (by decide)
  exact ⟨by decide, hmain.1, hmain.2.1, hmain.2.2.1,
    hmain.2.2.2 _ (by rw [save_pdf_files]; exact List.mem_cons_self _ _)⟩

/-- A URL that enters `main`'s URL branch (it contains `youtube.com`)
but matches neither the `v=` nor the `youtu.be` parser. -/
def playlistURL : String := "https://www.youtube.com/playlist"

/-- C10: on `playlistURL` the extraction assigns no identifier at all
(Python raises `NameError` at the next use of `video_id`) instead of
falling back to the raw-identifier branch, and `main` dies right after
summarizer setup, before any listing or fetch. -/
theorem url_branch_unassigned :
    extract_video_id playlistURL = none
    ∧ main_model
        { available_models := ["llama3:latest"]
          setup_result := some echoSummarizer
          video_url := playlistURL
          listing := Except.ok ["en"]
          lang_input := "en"
          fetchF := fun _ _ => some "transcript text" }
        = [MEvent.getModels, MEvent.setupModel] := by
  constructor
  · decide
  · have hx : extract_video_id playlistURL = none := by decide
    unfold main_model
    rw [if_neg (by decide : ¬ (["llama3:latest"] = ([] : List String)))]
    simp only [hx]
